import Mathlib

/-!
Verification of the watering-reminder scheduling and persistence logic, the
conversation send rollback, and the identification-reply name extraction of
the plant-assistant app (src/App.tsx, src/types.ts).

Machine numbers are modelled as `Int`: every timestamp and interval the
claims exercise lies far inside the exact-integer range of IEEE doubles, and
`Math.floor` of a real division is `Int.fdiv`.
-/

/-- `24 * 60 * 60 * 1000`, the `msInDay` constant of src/App.tsx. -/
def msInDay : Int := 24 * 60 * 60 * 1000

/-- The load-path derived date of src/App.tsx lines 141–146:
`intervalsPassed = Math.floor((Date.now() - startDate) / intervalMs)`,
`next = startDate + (intervalsPassed + 1) * intervalMs`. -/
def nextWateringTimestamp (now startDate interval : Int) : Int :=
  let intervalMs := interval * msInDay
  let timeSinceStart := now - startDate
  let intervalsPassed := Int.fdiv timeSinceStart intervalMs
  startDate + (intervalsPassed + 1) * intervalMs

/-- The save-path derived date of src/App.tsx line 256:
`new Date(newReminder.startDate + newReminder.interval * msInDay)`. -/
def saveNextWateringTimestamp (startDate interval : Int) : Int :=
  startDate + interval * msInDay

/-- A stored reminder record, src/types.ts: plantName, interval (days),
startDate (timestamp). -/
structure Reminder where
  plantName : String
  interval : Int
  startDate : Int
deriving DecidableEq, Repr

/-- In-memory reminder of src/App.tsx line 79: `Reminder & { nextWateringDate }`. -/
structure DerivedReminder extends Reminder where
  nextWateringDate : Int
deriving DecidableEq, Repr

/-- A record as serialized to the `wateringReminders` localStorage key.
`JSON.stringify` keeps whatever fields the object has: the freshly built
`newReminder` has only the three `Reminder` fields, while records spread from
the in-memory state also carry their `nextWateringDate` (serialized as a
date); `nextWateringDateField = none` models the field being absent. -/
structure StoredRecord extends Reminder where
  nextWateringDateField : Option Int
deriving DecidableEq, Repr

/-- Sort relation of src/App.tsx lines 156 and 260:
`(a, b) => a.nextWateringDate.getTime() - b.nextWateringDate.getTime()`. -/
def remLE (a b : DerivedReminder) : Prop :=
  a.nextWateringDate ≤ b.nextWateringDate

instance : DecidableRel remLE :=
  fun a b => inferInstanceAs (Decidable (a.nextWateringDate ≤ b.nextWateringDate))

instance : IsTotal DerivedReminder remLE :=
  ⟨fun a b => Int.le_total a.nextWateringDate b.nextWateringDate⟩

instance : IsTrans DerivedReminder remLE :=
  ⟨fun _ _ _ hab hbc => le_trans hab hbc⟩

/-- `Array.prototype.sort` with the ascending `nextWateringDate` comparator,
modelled as a stable sort. -/
def sortByNext (l : List DerivedReminder) : List DerivedReminder :=
  List.insertionSort remLE l

/-- src/App.tsx line 154: `{ ...reminder, nextWateringDate }` — the spread
copies the stored fields and the computed `nextWateringDate` property
overwrites any stale stored one. -/
def deriveReminder (now : Int) (r : StoredRecord) : DerivedReminder :=
  { r.toReminder with
    nextWateringDate := nextWateringTimestamp now r.startDate r.interval }

/-- The load effect on well-formed stored data, src/App.tsx lines 140–157:
map each stored record to a derived one and sort ascending. -/
def loadDerived (stored : List StoredRecord) (now : Int) : List DerivedReminder :=
  sortByNext (stored.map (deriveReminder now))

/-- What `handleSaveReminder` writes to storage, src/App.tsx lines 245–253:
`[...reminders.filter(r => r.plantName !== plantName), newReminder]`, where
the carried-over in-memory records serialize with their `nextWateringDate`
field and the fresh record without one. -/
def saveStorage (mem : List DerivedReminder) (name : String) (iv now : Int) :
    List StoredRecord :=
  (mem.filter (fun r => r.plantName != name)).map
      (fun r => { toReminder := r.toReminder,
                  nextWateringDateField := some r.nextWateringDate })
    ++ [{ plantName := name, interval := iv, startDate := now,
          nextWateringDateField := none }]

/-- The new in-memory list `handleSaveReminder` installs, src/App.tsx
lines 255–262: filter out the same plant, append the new record with the
direct save-path date, and sort. -/
def saveMemory (mem : List DerivedReminder) (name : String) (iv now : Int) :
    List DerivedReminder :=
  sortByNext
    ((mem.filter (fun r => r.plantName != name))
      ++ [{ plantName := name, interval := iv, startDate := now,
            nextWateringDate := saveNextWateringTimestamp now iv }])

/-- The new in-memory list `handleDeleteReminder` installs, src/App.tsx
lines 266–269. -/
def deleteMemory (mem : List DerivedReminder) (name : String) :
    List DerivedReminder :=
  mem.filter (fun r => r.plantName != name)

/-- What `handleDeleteReminder` writes to storage, src/App.tsx line 268:
the filtered in-memory records, each serializing with its
`nextWateringDate` field. -/
def deleteStorage (mem : List DerivedReminder) (name : String) :
    List StoredRecord :=
  (mem.filter (fun r => r.plantName != name)).map
    (fun r => { toReminder := r.toReminder,
                nextWateringDateField := some r.nextWateringDate })

/-- The at-most-one-reminder-per-plantName invariant. -/
def uniqueNames (l : List DerivedReminder) : Prop :=
  (l.map (fun r => r.plantName)).Nodup

/-- src/App.tsx line 150, the alert condition:
`Date.now() >= next - msInDay && Date.now() < next + msInDay`. -/
def shouldAlert (now next : Int) : Bool :=
  decide (next - msInDay ≤ now) && decide (now < next + msInDay)

/-- One alert decision per stored record during a single load cycle,
src/App.tsx lines 140–155: the map visits each record once and raises at
most one alert for it. -/
def loadAlertFlags (stored : List StoredRecord) (now : Int) : List Bool :=
  stored.map
    (fun r => shouldAlert now (nextWateringTimestamp now r.startDate r.interval))

/-- A JSON-parsed array element with possibly missing fields: a missing
field reads as `undefined`, and arithmetic on it yields `NaN`; `none`
models `undefined`/`NaN`. -/
structure RawRecord where
  plantName : Option String
  interval : Option Int
  startDate : Option Int
deriving DecidableEq, Repr

/-- JS `+` under `NaN` propagation. -/
def jsAdd : Option Int → Option Int → Option Int
  | some a, some b => some (a + b)
  | _, _ => none

/-- JS `-` under `NaN` propagation. -/
def jsSub : Option Int → Option Int → Option Int
  | some a, some b => some (a - b)
  | _, _ => none

/-- JS `*` under `NaN` propagation. -/
def jsMul : Option Int → Option Int → Option Int
  | some a, some b => some (a * b)
  | _, _ => none

/-- `Math.floor(a / b)` under `NaN` propagation. The claims never apply it
to a zero divisor (which would give an infinity, outside this model). -/
def jsFloorDiv : Option Int → Option Int → Option Int
  | some a, some b => if b = 0 then none else some (Int.fdiv a b)
  | _, _ => none

/-- A derived entry built from a possibly-invalid raw record. -/
structure RawDerived where
  plantName : Option String
  interval : Option Int
  startDate : Option Int
  nextWateringDate : Option Int
deriving DecidableEq, Repr

/-- src/App.tsx lines 140–154 applied to a raw record: the date math runs
on whatever fields are present, `NaN` propagating, and never throws. -/
def rawDerive (now : Int) (r : RawRecord) : RawDerived :=
  let intervalMs := jsMul r.interval (some msInDay)
  let timeSinceStart := jsSub (some now) r.startDate
  let intervalsPassed := jsFloorDiv timeSinceStart intervalMs
  { plantName := r.plantName, interval := r.interval, startDate := r.startDate,
    nextWateringDate :=
      jsAdd r.startDate (jsMul (jsAdd intervalsPassed (some 1)) intervalMs) }

/-- Sorting raw entries: the JS comparator on a `NaN` date returns `NaN`
and the resulting order is unspecified; the model fixes one total relation,
and the claims rely only on the result being a permutation. -/
def rawLE (a b : RawDerived) : Prop :=
  a.nextWateringDate.getD 0 ≤ b.nextWateringDate.getD 0

instance : DecidableRel rawLE :=
  fun a b =>
    inferInstanceAs (Decidable (a.nextWateringDate.getD 0 ≤ b.nextWateringDate.getD 0))

/-- Observable outcome of the reminder load effect. -/
structure LoadOutcome where
  reminders : List RawDerived
  errorShown : Option String
  storageCleared : Bool
deriving DecidableEq, Repr

/-- The load effect of src/App.tsx lines 135–163. `raw` is `Except.error`
when `JSON.parse` throws or the parsed value is not an array (its `.map`
throws); that catch branch logs, removes the storage key, never calls
`setError`, and leaves the reminders state at its initial empty value. -/
def loadReminderEffect (raw : Except String (List RawRecord)) (now : Int) :
    LoadOutcome :=
  match raw with
  | .error _ => { reminders := [], errorShown := none, storageCleared := true }
  | .ok rs =>
      { reminders := List.insertionSort rawLE (rs.map (rawDerive now)),
        errorShown := none, storageCleared := false }

/-- Chat roles of src/types.ts. -/
inductive Role
  | user
  | model
deriving DecidableEq, Repr

/-- src/types.ts ChatMessage. -/
structure ChatMsg where
  role : Role
  text : String
deriving DecidableEq, Repr

/-- The slice of the App component state that the send and analyze
handlers read or write. -/
structure AppState where
  messages : List ChatMsg
  userInput : String
  isLoading : Bool
  error : Option String
  plantName : Option String
  chatSession : Option Nat
  isListening : Bool
deriving DecidableEq, Repr

/-- The JS whitespace class, restricted to the ASCII whitespace characters
plus newline and carriage return — the only whitespace the replies and
inputs under verification contain. -/
def isJsSpace (c : Char) : Bool :=
  c == ' ' || c == '\t' || c == '\n' || c == '\r'
    || c == Char.ofNat 11 || c == Char.ofNat 12

/-- `String.prototype.trim`: strip leading and trailing whitespace. -/
def jsTrim (s : String) : String :=
  String.mk (((s.data.dropWhile isJsSpace).reverse.dropWhile isJsSpace).reverse)

/-- The user-facing error text of src/App.tsx line 235. -/
def sendErrorText : String :=
  "خطایی در ارتباط با سرور رخ داد. لطفاً دوباره تلاش کنید."

/-- `handleSendMessage`, src/App.tsx lines 211–240. `result` is the outcome
of the external `sendMessageToChat` call and `freshId` identifies the
session `createChatSession` would create were the handle null. The guard
returns unchanged on empty (trimmed) input or while loading; otherwise the
user turn is appended optimistically, and on failure `prev.slice(0, -1)`
drops it again while `setError` installs the message. -/
def handleSendMessage (st : AppState) (freshId : Nat)
    (result : Except String String) : AppState :=
  if jsTrim st.userInput == "" || st.isLoading then st
  else
    let sess := match st.chatSession with
      | some s => s
      | none => freshId
    let optimistic := st.messages ++ [{ role := Role.user, text := st.userInput }]
    match result with
    | .ok reply =>
        { st with
          messages := optimistic ++ [{ role := Role.model, text := reply }],
          userInput := "", isLoading := false, error := none,
          chatSession := some sess, isListening := false }
    | .error _ =>
        { st with
          messages := optimistic.dropLast,
          userInput := "", isLoading := false, error := some sendErrorText,
          chatSession := some sess, isListening := false }

/-- `parseInt(value, 10) || 1` of src/App.tsx line 54: `none` models a
`NaN` parse result; `0` and `NaN` are falsy, so both coerce to 1; every
other integer (negative included) passes through. -/
def parseIntOr1 : Option Int → Int
  | none => 1
  | some n => if n = 0 then 1 else n

/-- The modal's interval state: initial value 7 (src/App.tsx line 37), each
change event replacing it through `parseIntOr1`. -/
def modalIntervalState (inputs : List (Option Int)) : Int :=
  inputs.foldl (fun _ v => parseIntOr1 v) 7

/-- `handleSave` of the modal, src/App.tsx lines 39–43: `onSave` fires only
when `interval > 0`. -/
def modalTrySave (interval : Int) : Option Int :=
  if 0 < interval then some interval else none

/-- The literal head of the name-extraction regex of src/App.tsx line 196,
`\*\*نام گیاه:\*\*`. -/
def nameFieldLit : List Char := "**نام گیاه:**".data

/-- Whether `\s*(\/|\n)` matches some prefix here. The capture is already
fixed at this point, so only existence of a match matters. -/
def sepAfterSpaces : List Char → Bool
  | [] => false
  | c :: cs =>
      if c == '/' || c == '\n' then true
      else if isJsSpace c then sepAfterSpaces cs
      else false

/-- The lazy capture `(.*?)` followed by `\s*(\/|\n)`: shortest capture
first, `.` matching anything but a line terminator. -/
def findCapture : List Char → Option (List Char)
  | [] => none
  | c :: cs =>
      if sepAfterSpaces (c :: cs) then some []
      else if c == '\n' || c == '\r' then none
      else (findCapture cs).map (fun g => c :: g)

/-- Length of the leading whitespace run. -/
def spaceRun : List Char → Nat
  | [] => 0
  | c :: cs => if isJsSpace c then spaceRun cs + 1 else 0

/-- Backtracking over the greedy leading `\s*`: consume `i` whitespace
characters, longest first. -/
def tryOuter (l : List Char) : Nat → Option (List Char)
  | 0 => findCapture l
  | i + 1 =>
      match findCapture (l.drop (i + 1)) with
      | some g => some g
      | none => tryOuter l i

/-- Match `\s*(.*?)\s*(\/|\n)` at this position, returning the capture. -/
def matchAfterLit (l : List Char) : Option (List Char) :=
  tryOuter l (spaceRun l)

/-- Does `pat` occur literally at the head of `l`? -/
def listStartsWith : List Char → List Char → Bool
  | [], _ => true
  | _ :: _, [] => false
  | p :: ps, c :: cs => p == c && listStartsWith ps cs

/-- Leftmost match of the whole regex: at each position where the literal
head occurs, attempt the tail; otherwise advance one character. -/
def findNameMatch : List Char → Option (List Char)
  | [] => none
  | c :: cs =>
      if listStartsWith nameFieldLit (c :: cs) then
        match matchAfterLit ((c :: cs).drop nameFieldLit.length) with
        | some g => some g
        | none => findNameMatch cs
      else findNameMatch cs

/-- src/App.tsx lines 196–199: run the name regex against the reply; the
captured group must also be truthy (non-empty) for `setPlantName` to run,
and is trimmed. -/
def extractPlantName (reply : String) : Option String :=
  match findNameMatch reply.data with
  | some g => if g.isEmpty then none else some (jsTrim (String.mk g))
  | none => none

/-- The success path of `handleAnalyzeClick`, src/App.tsx lines 178–209:
the reply becomes the sole (first) conversation turn, the plant name is the
extraction result (null when absent), the error is cleared, and a fresh
chat session replaces any prior handle. -/
def handleAnalyzeSuccess (st : AppState) (reply : String) (freshId : Nat) :
    AppState :=
  { st with
    messages := [{ role := Role.model, text := reply }],
    plantName := extractPlantName reply,
    error := none, isLoading := false,
    chatSession := some freshId }

/-- A reply text containing the structured name field, as in the spec's
example. -/
def monsteraReply : String :=
  "سلام!\n**نام گیاه:** Monstera / Monstera deliciosa\n**معرفی:** گیاه زیبا"

/-- Concrete pre-save in-memory state used to exhibit C3's failure. -/
def c3mem : List DerivedReminder :=
  [{ plantName := "A", interval := 3, startDate := 0,
     nextWateringDate := 259200000 }]

/-- Clearing the serialized `nextWateringDate` field of a stored record. -/
def clearDateField (r : StoredRecord) : StoredRecord :=
  { r with nextWateringDateField := none }

/-- Concrete stored record used in witnesses. -/
def w7rec : StoredRecord :=
  { plantName := "A", interval := 1, startDate := 0,
    nextWateringDateField := none }

/-- Concrete app state used in witnesses. -/
def w5state : AppState :=
  { messages := [{ role := Role.model, text := "m" }], userInput := "hi",
    isLoading := false, error := none, plantName := none,
    chatSession := some 0, isListening := false }

lemma nextWateringTimestamp_eq (now s iv : Int) :
    nextWateringTimestamp now s iv
      = s + ((now - s).fdiv (iv * msInDay) + 1) * (iv * msInDay) := rfl

lemma msInDay_pos : (0 : Int) < msInDay := by decide

/-- C1: for interval ≥ 1 and startDate ≤ now, the load-path
`nextWateringTimestamp` is strictly in the future and differs from
`startDate` by an integer multiple of `interval` days; in particular
interval 7 with startDate three days ago yields now plus four days. -/
theorem c1_next_watering_future (now s iv : Int) (h1 : 1 ≤ iv) (h2 : s ≤ now) :
    now < nextWateringTimestamp now s iv
      ∧ (iv * msInDay) ∣ (nextWateringTimestamp now s iv - s)
      ∧ nextWateringTimestamp now (now - 3 * msInDay) 7 = now + 4 * msInDay := by
  have hm : (0 : Int) < iv * msInDay := mul_pos (by omega) msInDay_pos
  refine ⟨?_, ?_, ?_⟩
  · have hk := Int.lt_fdiv_add_one_mul_self (now - s) hm
    rw [nextWateringTimestamp_eq]
    linarith
  · refine ⟨(now - s).fdiv (iv * msInDay) + 1, ?_⟩
    rw [nextWateringTimestamp_eq]
    ring
  · rw [nextWateringTimestamp_eq]
    have h3 : now - (now - 3 * msInDay) = 3 * msInDay := by ring
    rw [h3]
    have h4 : (3 * msInDay).fdiv (7 * msInDay) = 0 := by decide
    rw [h4]
    ring

/-- Witness for C1 at now = 5, startDate = 3, interval = 2. -/
theorem c1_next_watering_future_witness :
    (5 : Int) < nextWateringTimestamp 5 3 2
      ∧ ((2 : Int) * msInDay) ∣ (nextWateringTimestamp 5 3 2 - 3)
      ∧ nextWateringTimestamp 5 (5 - 3 * msInDay) 7 = 5 + 4 * msInDay :=
  c1_next_watering_future 5 3 2 (by decide) (by decide)

/-- C10: within the first interval window after startDate, the load-path
formula agrees with the save-path direct formula. -/
theorem c10_save_load_agree (now s iv : Int)
    (h1 : s ≤ now) (h2 : now < s + iv * msInDay) :
    nextWateringTimestamp now s iv = saveNextWateringTimestamp s iv := by
  have hm : (0 : Int) < iv * msInDay := by omega
  have ht0 : (0 : Int) ≤ now - s := by omega
  have htm : now - s < iv * msInDay := by omega
  have hq : (now - s).fdiv (iv * msInDay) = 0 := by
    rw [Int.fdiv_eq_ediv]
    · exact Int.ediv_eq_zero_of_lt ht0 htm
    · omega
  rw [nextWateringTimestamp_eq, hq]
  simp [saveNextWateringTimestamp]

/-- Witness for C10 at now = startDate = 0, interval = 7. -/
theorem c10_save_load_agree_witness :
    nextWateringTimestamp 0 0 7 = saveNextWateringTimestamp 0 7 :=
  c10_save_load_agree 0 0 7 (by decide) (by decide)

lemma loadDerived_perm (stored : List StoredRecord) (now : Int) :
    (loadDerived stored now).Perm (stored.map (deriveReminder now)) :=
  List.perm_insertionSort remLE _

lemma deriveReminder_plantName (now : Int) (r : StoredRecord) :
    (deriveReminder now r).plantName = r.plantName := rfl

/-- C2: after a save, a load returns a list holding exactly one record with
the saved plantName, that record carries the saved interval, and the list
is sorted ascending by nextWateringDate. -/
theorem c2_save_then_load (mem : List DerivedReminder) (name : String)
    (iv now now2 : Int) :
    ((loadDerived (saveStorage mem name iv now) now2).countP
        (fun r => r.plantName == name) = 1)
      ∧ (∀ r ∈ loadDerived (saveStorage mem name iv now) now2,
          r.plantName = name → r.interval = iv)
      ∧ List.Sorted remLE (loadDerived (saveStorage mem name iv now) now2) := by
  have hperm := loadDerived_perm (saveStorage mem name iv now) now2
  refine ⟨?_, ?_, List.sorted_insertionSort remLE _⟩
  · rw [hperm.countP_eq]
    rw [saveStorage, List.map_append, List.countP_append, List.map_map,
      List.countP_map]
    have h0 : List.countP
        ((fun r => r.plantName == name) ∘ deriveReminder now2 ∘
          (fun r => ({ toReminder := r.toReminder,
                       nextWateringDateField := some r.nextWateringDate } :
                      StoredRecord)))
        (mem.filter (fun r => r.plantName != name)) = 0 := by
      rw [List.countP_eq_zero]
      intro r hr
      have := (List.mem_filter.mp hr).2
      simpa using this
    rw [h0]
    simp [List.countP_singleton, deriveReminder]
  · intro r hr hname
    have hr' := hperm.mem_iff.mp hr
    rw [saveStorage, List.map_append] at hr'
    rcases List.mem_append.mp hr' with hl | hnew
    · exfalso
      rcases List.mem_map.mp hl with ⟨sr, hsr, hrfl⟩
      rcases List.mem_map.mp hsr with ⟨mr, hmr, hsrfl⟩
      have hne := (List.mem_filter.mp hmr).2
      subst hrfl
      subst hsrfl
      simp [deriveReminder_plantName] at hname
      simp [hname] at hne
    · have : r = deriveReminder now2
          { plantName := name, interval := iv, startDate := now,
            nextWateringDateField := none } := by
        simpa using hnew
      subst this
      rfl

/-- C3 fails on the code: saving "B" while the in-memory list holds a
derived reminder for "A" writes A's record to storage with its serialized
nextWateringDate field present. -/
theorem c3_counterexample :
    (saveStorage c3mem "B" 7 1000).map (fun r => r.nextWateringDateField)
      = [some 259200000, none] := by decide

/-- C3 amended: the freshly constructed record is written with only the
three Reminder fields, but every record carried over from the in-memory
list — by save and by delete alike — is serialized together with its
nextWateringDate; load ignores any stored nextWateringDate field and
recomputes the derived date. -/
theorem c3_amended_storage_shape (mem : List DerivedReminder) (name d : String)
    (iv now : Int) :
    (saveStorage mem name iv now).getLast?
        = some { plantName := name, interval := iv, startDate := now,
                 nextWateringDateField := none }
      ∧ (∀ r ∈ (saveStorage mem name iv now).dropLast,
          r.nextWateringDateField.isSome = true)
      ∧ (∀ r ∈ deleteStorage mem d, r.nextWateringDateField.isSome = true)
      ∧ (∀ stored : List StoredRecord, ∀ now2 : Int,
          loadDerived (stored.map clearDateField) now2 = loadDerived stored now2) := by
  refine ⟨?_, ?_, ?_, ?_⟩
  · rw [saveStorage, List.getLast?_concat]
  · intro r hr
    rw [saveStorage, List.dropLast_concat] at hr
    rcases List.mem_map.mp hr with ⟨mr, _, hrfl⟩
    subst hrfl
    rfl
  · intro r hr
    rcases List.mem_map.mp hr with ⟨mr, _, hrfl⟩
    subst hrfl
    rfl
  · intro stored now2
    unfold loadDerived
    rw [List.map_map]
    congr 1

/-- Witness for C3's amended theorem at a concrete store and record. -/
theorem c3_amended_storage_shape_witness :
    (saveStorage c3mem "B" 7 1000).getLast?
        = some { plantName := "B", interval := 7, startDate := 1000,
                 nextWateringDateField := none }
      ∧ ((saveStorage c3mem "B" 7 1000).dropLast.headD
            { plantName := "", interval := 0, startDate := 0,
              nextWateringDateField := none }).nextWateringDateField.isSome = true := by
  have h := c3_amended_storage_shape c3mem "B" "A" 7 1000
  refine ⟨h.1, ?_⟩
  exact h.2.1 _ (by decide)

/-- C4 fails on the code: a successfully parsed array holding a record with
missing interval and startDate is not discarded — load keeps one derived
entry (with NaN-valued date) instead of yielding the empty list. -/
theorem c4_counterexample :
    (loadReminderEffect
        (.ok [{ plantName := some "x", interval := none, startDate := none }])
        0).reminders ≠ [] := by decide

/-- C4 amended: when the stored value fails to deserialize (JSON.parse
throws or the value is not an array), load yields an empty list, clears the
stored key, and surfaces no error; but individually invalid records inside
a successfully parsed array are not discarded — each still yields a derived
entry. -/
theorem c4_amended_load_failure (e : String) (now : Int) (rs : List RawRecord) :
    (loadReminderEffect (.error e) now).reminders = []
      ∧ (loadReminderEffect (.error e) now).errorShown = none
      ∧ (loadReminderEffect (.error e) now).storageCleared = true
      ∧ (loadReminderEffect (.ok rs) now).reminders.length = rs.length
      ∧ (loadReminderEffect (.ok rs) now).errorShown = none := by
  refine ⟨rfl, rfl, rfl, ?_, rfl⟩
  show (List.insertionSort rawLE (rs.map (rawDerive now))).length = rs.length
  rw [(List.perm_insertionSort rawLE _).length_eq, List.length_map]

/-- C5: a model-call failure during send leaves the message sequence
exactly as before the call, surfaces the error text, and keeps the session
handle for retry. -/
theorem c5_send_failure_rollback (st : AppState) (freshId : Nat) (e : String)
    (hin : jsTrim st.userInput ≠ "") (hload : st.isLoading = false) :
    (handleSendMessage st freshId (.error e)).messages = st.messages
      ∧ (handleSendMessage st freshId (.error e)).error = some sendErrorText
      ∧ (handleSendMessage st freshId (.error e)).chatSession.isSome = true
      ∧ ∀ s, st.chatSession = some s →
          (handleSendMessage st freshId (.error e)).chatSession = some s := by
  have hguard : (jsTrim st.userInput == "" || st.isLoading) = false := by
    simp [hin, hload]
  unfold handleSendMessage
  rw [hguard]
  simp only [Bool.false_eq_true, if_false, List.dropLast_concat]
  cases hcs : st.chatSession with
  | none => simp
  | some s => simp

/-- Witness for C5 at a concrete one-message state. -/
theorem c5_send_failure_rollback_witness :
    (handleSendMessage w5state 1 (.error "boom")).messages = w5state.messages
      ∧ (handleSendMessage w5state 1 (.error "boom")).error = some sendErrorText
      ∧ (handleSendMessage w5state 1 (.error "boom")).chatSession.isSome = true
      ∧ ∀ s, w5state.chatSession = some s →
          (handleSendMessage w5state 1 (.error "boom")).chatSession = some s :=
  c5_send_failure_rollback w5state 1 "boom" (by decide) (by decide)

lemma uniqueNames_filter (mem : List DerivedReminder) (name : String)
    (h : uniqueNames mem) :
    uniqueNames (mem.filter (fun r => r.plantName != name)) := by
  unfold uniqueNames at *
  exact ((List.filter_sublist mem).map (fun r => r.plantName)).nodup h

lemma length_filter_add_countP (l : List DerivedReminder) (name : String) :
    (l.filter (fun r => r.plantName != name)).length
      + List.countP (fun r => r.plantName == name) l = l.length := by
  induction l with
  | nil => rfl
  | cons a t ih =>
    simp only [bne] at ih ⊢
    by_cases h : a.plantName = name
    · simp only [List.filter_cons, List.countP_cons, h, beq_self_eq_true,
        Bool.not_true, Bool.false_eq_true, if_false, if_true, List.length_cons]
      omega
    · have hb : (a.plantName == name) = false := by simp [h]
      simp only [List.filter_cons, List.countP_cons, hb, Bool.not_false,
        if_true, Bool.false_eq_true, if_false, List.length_cons]
      omega

lemma name_not_mem_filter (mem : List DerivedReminder) (name : String) :
    name ∉ (mem.filter (fun r => r.plantName != name)).map
        (fun r => r.plantName) := by
  intro hmem
  rcases List.mem_map.mp hmem with ⟨r, hr, hrfl⟩
  have := (List.mem_filter.mp hr).2
  simp [hrfl] at this

/-- C6: saving over an existing plantName preserves the
at-most-one-per-plantName invariant (delete preserves it too), leaves the
store size unchanged, and the surviving record carries the new startDate
and interval. -/
theorem c6_save_replaces (mem : List DerivedReminder) (name d : String)
    (iv now : Int) (hinv : uniqueNames mem)
    (hmem : ∃ r ∈ mem, r.plantName = name) :
    uniqueNames (saveMemory mem name iv now)
      ∧ uniqueNames (deleteMemory mem d)
      ∧ (saveMemory mem name iv now).length = mem.length
      ∧ ∀ r ∈ saveMemory mem name iv now,
          r.plantName = name → r.startDate = now ∧ r.interval = iv := by
  have hperm := List.perm_insertionSort remLE
    ((mem.filter (fun r => r.plantName != name))
      ++ [{ plantName := name, interval := iv, startDate := now,
            nextWateringDate := saveNextWateringTimestamp now iv }])
  unfold saveMemory sortByNext
  refine ⟨?_, ?_, ?_, ?_⟩
  · unfold uniqueNames
    rw [(hperm.map (fun r => r.plantName)).nodup_iff]
    rw [List.map_append]
    rw [List.nodup_append]
    refine ⟨uniqueNames_filter mem name hinv, by simp, ?_⟩
    intro a ha hb
    simp only [List.map_cons, List.map_nil, List.mem_singleton] at hb
    exact name_not_mem_filter mem name (hb ▸ ha)
  · exact uniqueNames_filter mem d hinv
  · rw [hperm.length_eq, List.length_append]
    have hcount : (mem.map (fun r => r.plantName)).count name = 1 := by
      apply List.count_eq_one_of_mem hinv
      rcases hmem with ⟨r, hr, hrfl⟩
      exact List.mem_map.mpr ⟨r, hr, hrfl⟩
    have key := length_filter_add_countP mem name
    have h3 : List.countP (fun r => r.plantName == name) mem = 1 := by
      rwa [List.count_eq_countP, List.countP_map] at hcount
    simp only [List.length_cons, List.length_nil]
    omega
  · intro r hr hname
    have hr' := hperm.mem_iff.mp hr
    rcases List.mem_append.mp hr' with hl | hnew
    · exfalso
      have := (List.mem_filter.mp hl).2
      simp [hname] at this
    · have : r = { plantName := name, interval := iv, startDate := now,
                   nextWateringDate := saveNextWateringTimestamp now iv } := by
        simpa using hnew
      subst this
      exact ⟨rfl, rfl⟩

/-- Witness for C6 at a store holding exactly a reminder for "A". -/
theorem c6_save_replaces_witness :
    uniqueNames (saveMemory c3mem "A" 2 5)
      ∧ uniqueNames (deleteMemory c3mem "A")
      ∧ (saveMemory c3mem "A" 2 5).length = c3mem.length
      ∧ ∀ r ∈ saveMemory c3mem "A" 2 5,
          r.plantName = "A" → r.startDate = 5 ∧ r.interval = 2 :=
  c6_save_replaces c3mem "A" "A" 2 5 (by unfold uniqueNames; decide)
    ⟨{ plantName := "A", interval := 3, startDate := 0,
       nextWateringDate := 259200000 }, by decide, rfl⟩

/-- C7: during one load cycle each stored reminder gets exactly one alert
decision, and the alert fires iff now lies in the half-open window
[nextWateringDate - 1 day, nextWateringDate + 1 day). -/
theorem c7_alert_window (stored : List StoredRecord) (now : Int) :
    (loadAlertFlags stored now).length = stored.length
      ∧ ∀ (i : Nat) (r : StoredRecord), stored[i]? = some r →
          ((loadAlertFlags stored now)[i]? = some true ↔
            (nextWateringTimestamp now r.startDate r.interval - msInDay ≤ now
              ∧ now < nextWateringTimestamp now r.startDate r.interval + msInDay)) := by
  refine ⟨List.length_map _ _, ?_⟩
  intro i r hir
  have hflag : (loadAlertFlags stored now)[i]?
      = some (shouldAlert now (nextWateringTimestamp now r.startDate r.interval)) := by
    simp [loadAlertFlags, List.getElem?_map, hir]
  rw [hflag]
  simp [shouldAlert]

/-- Witness for C7 at a single stored record and now = 0. -/
theorem c7_alert_window_witness :
    (loadAlertFlags [w7rec] 0)[0]? = some true ↔
      (nextWateringTimestamp 0 w7rec.startDate w7rec.interval - msInDay ≤ 0
        ∧ 0 < nextWateringTimestamp 0 w7rec.startDate w7rec.interval + msInDay) :=
  (c7_alert_window [w7rec] 0).2 0 w7rec (by decide)

/-- C8: the reminder modal rejects or coerces invalid interval input before
any Reminder is constructed — a NaN parse or a typed 0 coerces to 1, and
`onSave` fires only on positive values — so every interval ever passed to
the save path is an integer ≥ 1. -/
theorem c8_interval_boundary :
    (∀ inputs k, modalTrySave (modalIntervalState inputs) = some k → 1 ≤ k)
      ∧ parseIntOr1 none = 1 ∧ parseIntOr1 (some 0) = 1 := by
  refine ⟨?_, rfl, rfl⟩
  intro inputs k h
  unfold modalTrySave at h
  split at h
  · rename_i hpos
    cases h
    omega
  · cases h

/-- Witness for C8 at the single typed input 5. -/
theorem c8_interval_boundary_witness :
    modalTrySave (modalIntervalState [some 5]) = some 5 ∧ (1 : Int) ≤ 5 :=
  ⟨rfl, c8_interval_boundary.1 [some 5] 5 rfl⟩

/-- C9: the reply containing `**نام گیاه:** Monstera / Monstera deliciosa`
yields extracted plantName "Monstera"; when the bolded name field with its
slash-or-newline separator is absent the extraction is null and the
identification flow still succeeds, the reply becoming the first (and only)
conversation turn. -/
theorem c9_extract_plant_name :
    extractPlantName monsteraReply = some "Monstera"
      ∧ ∀ (st : AppState) (reply : String) (freshId : Nat),
          extractPlantName reply = none →
            (handleAnalyzeSuccess st reply freshId).plantName = none
              ∧ (handleAnalyzeSuccess st reply freshId).messages
                  = [{ role := Role.model, text := reply }] := by
  refine ⟨by decide, ?_⟩
  intro st reply freshId h
  exact ⟨by simp [handleAnalyzeSuccess, h], rfl⟩

/-- Witness for C9 at a reply with no name field. -/
theorem c9_extract_plant_name_witness :
    (handleAnalyzeSuccess w5state "گیاه ناشناس" 0).plantName = none
      ∧ (handleAnalyzeSuccess w5state "گیاه ناشناس" 0).messages
          = [{ role := Role.model, text := "گیاه ناشناس" }] :=
  c9_extract_plant_name.2 w5state "گیاه ناشناس" 0 (by decide)
